import Mathlib

/-!
Verification of `embetter/utils.py`: the cache-aside transform wrapper
(`cached` / `run_cached` / `wrapped`) and the batch splitter (`batched`).

Modelling conventions:
* Items have an arbitrary type `α` with decidable equality (Python uses the
  raw item as the dict / diskcache key); vectors have an opaque type `β`.
* The diskcache `Cache` is a finite key-value store, modelled as an
  association list with at most one binding per key (`Store`); `set`
  overwrites the previous binding for the key.  `Cache(cache.directory)`
  opens the same logical store, so the write-back goes to the same `Store`.
* The per-call `results` dict maps each input index to either a resolved
  vector or the string sentinel `"TODO"`; a slot is modelled as `Option β`
  with `none` standing for the sentinel (the stored values are numeric
  vectors, whose `str` form is never `"TODO"`).
* `pipeline.transform` may raise, so the wrapped method is a function
  `List α → Except ε (List β)`; a raised exception is `Except.error`.
* `wrappedRun` reports, besides the assembled array and the final store,
  the list of argument lists the wrapped method was invoked on during the
  call (the code invokes it exactly once, on `text_todo`).
-/

namespace Embetter

variable {α β γ ε σ : Type}

/-- The persistent key-value store (`diskcache.Cache`), modelled as the
history of bindings; `get` observes the most recent binding for a key. -/
abbrev Store (α β : Type) : Type := List (α × β)

/-- `x in cache` / `cache[x]`: look a key up in the store. -/
def Store.get [DecidableEq α] : Store α β → α → Option β
  | [], _ => none
  | (k, v) :: s, x => if x = k then some v else Store.get s x

/-- `reference.set(text, x_tfm)`: bind the key to the value.  The new binding
shadows any earlier binding of the same key, so observationally (through
`get`) the existing entry is overwritten. -/
def Store.set [DecidableEq α] (s : Store α β) (k : α) (v : β) : Store α β :=
  (k, v) :: s

/-- The `(i, X[i])` pairs whose probe of the store at call start misses,
in input order, with the index counting from `n`: the entries for which the
`results` comprehension over `enumerate(X)` records the `"TODO"` sentinel.
`i_todo` and `text_todo` are its two projections. -/
def missListFrom [DecidableEq α] (store : Store α β) : Nat → List α → List (Nat × α)
  | _, [] => []
  | n, x :: X =>
    if (Store.get store x).isNone then (n, x) :: missListFrom store (n + 1) X
    else missListFrom store (n + 1) X

/-- `text_todo = [X[i] for i, x in results.items() if str(x) == "TODO"]`. -/
def textTodo [DecidableEq α] (store : Store α β) (X : List α) : List α :=
  (missListFrom store 0 X).map Prod.snd

/-- `i_todo = [i for i, x in results.items() if str(x) == "TODO"]`. -/
def iTodo [DecidableEq α] (store : Store α β) (X : List α) : List Nat :=
  (missListFrom store 0 X).map Prod.fst

/-- `results = {i: cache[x] if x in cache else "TODO" for i, x in enumerate(X)}`
as the index-ordered list of slots (`none` is the `"TODO"` sentinel). -/
def slots [DecidableEq α] (store : Store α β) (X : List α) : List (Option β) :=
  X.map (fun x => Store.get store x)

/-- `for i, text, x_tfm in zip(i_todo, text_todo, out): results[i] = x_tfm;
reference.set(text, x_tfm)`. -/
def writeBack [DecidableEq α] :
    List (Nat × α × β) → List (Option β) → Store α β → List (Option β) × Store α β
  | [], res, st => (res, st)
  | (i, t, v) :: rest, res, st => writeBack rest (res.set i (some v)) (Store.set st t v)

/-- Observable outcome of one call of the wrapped transform. -/
structure RunOut (α β ε : Type) where
  output : Except ε (List (Option β))
  store : Store α β
  calls : List (List α)

/-- `wrapped(X)` from `run_cached`: probe the store per item, invoke the
wrapped `method` once on `text_todo`, write the fresh vectors back, and
return the slots in input order (`np.array(...)` keeps the `results` dict
insertion order `0..len(X)-1`).  A raised exception aborts the call before
any write-back. -/
def wrappedRun [DecidableEq α] (method : List α → Except ε (List β))
    (store : Store α β) (X : List α) : RunOut α β ε :=
  match method (textTodo store X) with
  | Except.error e => ⟨Except.error e, store, [textTodo store X]⟩
  | Except.ok out =>
    let p := writeBack ((iTodo store X).zip ((textTodo store X).zip out))
      (slots store X) store
    ⟨Except.ok p.1, p.2, [textTodo store X]⟩

/-- `batched(iterable, n)` as written in the source: after the `n < 1` guard
it evaluates `tuple(islice(it, n))` — the tuple of the first `n` elements —
and the `for` loop yields that tuple's elements one by one; the rest of the
input is never consumed.  The model returns the full list of yielded values,
or the `ValueError` message. -/
def batched (l : List γ) (n : Int) : Except String (List γ) :=
  if n < 1 then Except.error "n must be at least one"
  else Except.ok (l.take n.toNat)

/-- A pipeline: a `transform` method plus its other attributes (`extra`). -/
structure Pipeline (α β ε σ : Type) where
  transform : List α → Except ε (List β)
  extra : σ

/-- The pipeline object after `cached`: its `transform` is the caching
wrapper (stateful in the store); every other attribute is carried over. -/
structure WrappedPipeline (α β ε σ : Type) where
  transform : List α → Store α β → RunOut α β ε
  extra : σ

/-- `cached(name, pipeline)`:
`pipeline.transform = run_cached(pipeline.transform); return pipeline`.
The disk cache opened via `name` is the store argument threaded through the
wrapped transform. -/
def cached [DecidableEq α] (p : Pipeline α β ε σ) : WrappedPipeline α β ε σ :=
  ⟨fun X store => wrappedRun p.transform store X, p.extra⟩

/-- A pipeline transform that never raises and maps `f` over the items, used
to instantiate theorems on concrete inputs. -/
def okMap (f : α → β) : List α → Except String (List β) :=
  fun L => Except.ok (L.map f)

/-- A pipeline transform that always raises, used to instantiate the failure
theorems on concrete inputs. -/
def alwaysFail : List α → Except String (List β) :=
  fun _ => Except.error "boom"

theorem Store.get_set [DecidableEq α] (s : Store α β) (k : α) (v : β) (x : α) :
    Store.get (Store.set s k v) x = if x = k then some v else Store.get s x := rfl

theorem writeBack_fst [DecidableEq α] :
    ∀ (L : List (Nat × α × β)) (res : List (Option β)) (st : Store α β),
    (writeBack L res st).1 = L.foldl (fun r q => r.set q.1 (some q.2.2)) res := by
  intro L
  induction L with
  | nil => intro res st; rfl
  | cons q L ih =>
    intro res st
    obtain ⟨i, t, v⟩ := q
    simp [writeBack, ih]

theorem writeBack_snd [DecidableEq α] :
    ∀ (L : List (Nat × α × β)) (res : List (Option β)) (st : Store α β),
    (writeBack L res st).2 = L.foldl (fun s q => Store.set s q.2.1 q.2.2) st := by
  intro L
  induction L with
  | nil => intro res st; rfl
  | cons q L ih =>
    intro res st
    obtain ⟨i, t, v⟩ := q
    simp [writeBack, ih]

theorem missListFrom_map_snd [DecidableEq α] (store : Store α β) :
    ∀ (X : List α) (n : Nat),
    (missListFrom store n X).map Prod.snd
      = X.filter (fun x => (Store.get store x).isNone) := by
  intro X
  induction X with
  | nil => intro n; rfl
  | cons x X ih =>
    intro n
    by_cases hx : (Store.get store x).isNone
    · simp [missListFrom, hx, List.filter_cons, ih]
    · simp [missListFrom, hx, List.filter_cons, ih]

theorem set_append_len (pre : List γ) (a b : γ) (l : List γ) :
    (pre ++ a :: l).set pre.length b = pre ++ b :: l := by
  induction pre with
  | nil => rfl
  | cons p pre ih => simp [ih]

theorem foldl_set_missListFrom [DecidableEq α] (f : α → β) (store : Store α β)
    (X : List α) : ∀ (pre : List (Option β)),
    (missListFrom store pre.length X).foldl
        (fun r q => r.set q.1 (some (f q.2))) (pre ++ slots store X)
    = pre ++ X.map (fun x => some ((Store.get store x).getD (f x))) := by
  induction X with
  | nil => intro pre; simp [missListFrom, slots]
  | cons x X ih =>
    intro pre
    rcases hx : Store.get store x with _ | v
    · have ih' := ih (pre ++ [some (f x)])
      simp only [slots, List.map_cons, List.length_append, List.length_cons,
        List.length_nil, Nat.zero_add, List.append_assoc, List.singleton_append] at ih'
      simp only [missListFrom, slots, List.map_cons, hx, Option.isNone_none, if_true,
        List.foldl_cons, Option.getD_none]
      rw [set_append_len]
      exact ih'
    · have ih' := ih (pre ++ [some v])
      simp only [slots, List.map_cons, List.length_append, List.length_cons,
        List.length_nil, Nat.zero_add, List.append_assoc, List.singleton_append] at ih'
      simp only [missListFrom, slots, List.map_cons, hx, Option.isNone_some,
        Bool.false_eq_true, if_false, Option.getD_some]
      exact ih'

theorem get_foldl_set [DecidableEq α] (f : α → β) :
    ∀ (l : List α) (st : Store α β) (x : α),
    Store.get (l.foldl (fun s t => Store.set s t (f t)) st) x
    = if x ∈ l then some (f x) else Store.get st x := by
  intro l
  induction l with
  | nil => intro st x; simp
  | cons t l ih =>
    intro st x
    rw [List.foldl_cons, ih]
    by_cases hm : x ∈ l
    · simp [hm, List.mem_cons]
    · by_cases ht : x = t
      · simp [hm, ht, Store.get_set]
      · simp [hm, ht, List.mem_cons, Store.get_set]

/-- Characterization of a successful wrapped call: if the wrapped method
returns one vector per miss item (as mapping `f` over them), the output is
the input-ordered array that keeps the cached vector on every hit and the
fresh one on every miss, and the final store is the initial store with one
write per miss-list entry, in order. -/
theorem wrappedRun_ok [DecidableEq α] (method : List α → Except ε (List β))
    (f : α → β) (store : Store α β) (X : List α)
    (hm : method (textTodo store X) = Except.ok ((textTodo store X).map f)) :
    (wrappedRun method store X).output
      = Except.ok (X.map (fun x => some ((Store.get store x).getD (f x))))
    ∧ (wrappedRun method store X).store
      = (textTodo store X).foldl (fun s t => Store.set s t (f t)) store := by
  have hfill := foldl_set_missListFrom f store X []
  simp only [List.length_nil, List.nil_append] at hfill
  simp only [wrappedRun, hm]
  simp only [iTodo, textTodo, List.map_map, writeBack_fst, writeBack_snd,
    List.zip_map', List.foldl_map]
  constructor
  · simpa using hfill
  · rfl

theorem textTodo_eq_filter [DecidableEq α] (store : Store α β) (X : List α) :
    textTodo store X = X.filter (fun x => (Store.get store x).isNone) :=
  missListFrom_map_snd store X 0

theorem wrappedRun_calls [DecidableEq α] (method : List α → Except ε (List β))
    (store : Store α β) (X : List α) :
    (wrappedRun method store X).calls = [textTodo store X] := by
  cases h : method (textTodo store X) with
  | error e => simp [wrappedRun, h]
  | ok out => simp [wrappedRun, h]

theorem wrappedRun_err [DecidableEq α] (method : List α → Except ε (List β))
    (store : Store α β) (X : List α) (e : ε)
    (he : method (textTodo store X) = Except.error e) :
    wrappedRun method store X = ⟨Except.error e, store, [textTodo store X]⟩ := by
  simp [wrappedRun, he]

/-- C1: for every list of input items, the wrapped transform returns an
array with one entry per input item, and the vector at each index `i` is
exactly what the uncached pipeline would produce for the item at index `i`
(output order matches input order regardless of hit/miss interleaving) —
for a pipeline that computes `f` item-wise and a store whose existing
entries agree with `f`. -/
theorem C1_wrapped_matches_uncached [DecidableEq α]
    (method : List α → Except ε (List β)) (f : α → β) (store : Store α β) (X : List α)
    (hm : ∀ L, method L = Except.ok (L.map f))
    (hc : ∀ x v, Store.get store x = some v → v = f x) :
    (wrappedRun method store X).output = Except.ok (X.map (fun x => some (f x))) ∧
    ∀ res, (wrappedRun method store X).output = Except.ok res →
      res.length = X.length := by
  have h := (wrappedRun_ok method f store X (hm _)).1
  have hmap : X.map (fun x => some ((Store.get store x).getD (f x)))
      = X.map (fun x => some (f x)) := by
    apply List.map_congr_left
    intro a ha
    rcases hxa : Store.get store a with _ | v
    · simp
    · simp [hc a v hxa]
  rw [h, hmap]
  refine ⟨rfl, ?_⟩
  intro res hres
  cases hres
  simp

theorem C1_witness :
    (∀ L, okMap (fun n => n * 10) L = Except.ok (L.map (fun n => n * 10))) ∧
    (∀ x v, Store.get ([(5, 50)] : Store Nat Nat) x = some v → v = x * 10) ∧
    ((wrappedRun (okMap (fun n => n * 10)) ([(5, 50)] : Store Nat Nat) [5, 7]).output
        = Except.ok ([5, 7].map (fun x => some (x * 10))) ∧
      ∀ res, (wrappedRun (okMap (fun n => n * 10))
          ([(5, 50)] : Store Nat Nat) [5, 7]).output = Except.ok res →
        res.length = ([5, 7] : List Nat).length) := by
  have hc : ∀ x v, Store.get ([(5, 50)] : Store Nat Nat) x = some v → v = x * 10 := by
    intro x v h
    by_cases h5 : x = 5
    · subst h5
      simp [Store.get] at h
      omega
    · simp [Store.get, h5] at h
  exact ⟨fun _ => rfl, hc, C1_wrapped_matches_uncached _ _ _ _ (fun _ => rfl) hc⟩

/-- C2: exactly the items missing from the store at call start are passed to
the wrapped method, as one list preserving their original relative order,
and the assembled result holds the cached vector at every hit index and the
freshly computed vector at every miss index. -/
theorem C2_partial_hits [DecidableEq α]
    (method : List α → Except ε (List β)) (f : α → β) (store : Store α β) (X : List α)
    (hm : ∀ L, method L = Except.ok (L.map f)) :
    (wrappedRun method store X).calls
      = [X.filter (fun x => (Store.get store x).isNone)] ∧
    (wrappedRun method store X).output
      = Except.ok (X.map (fun x => some ((Store.get store x).getD (f x)))) := by
  refine ⟨?_, (wrappedRun_ok method f store X (hm _)).1⟩
  rw [wrappedRun_calls, textTodo_eq_filter]

theorem C2_witness :
    (∀ L, okMap (fun n => n * 10) L = Except.ok (L.map (fun n => n * 10))) ∧
    ((wrappedRun (okMap (fun n => n * 10)) ([(1, 999)] : Store Nat Nat) [0, 1, 2]).calls
        = [[0, 1, 2].filter
            (fun x => (Store.get ([(1, 999)] : Store Nat Nat) x).isNone)] ∧
      (wrappedRun (okMap (fun n => n * 10)) ([(1, 999)] : Store Nat Nat) [0, 1, 2]).output
        = Except.ok ([0, 1, 2].map (fun x =>
            some ((Store.get ([(1, 999)] : Store Nat Nat) x).getD (x * 10))))) :=
  ⟨fun _ => rfl, C2_partial_hits _ _ _ _ (fun _ => rfl)⟩

/-- C3: evaluating `batched` at the spec's own scenario input shows the bug:
`batched([1,2,3,4,5], 2)` yields the elements `1` and `2` of the first batch
one by one and drops the rest of the input, instead of yielding the batches
`(1,2), (3,4), (5,)` that the docstring ("turns it into a batched iterable")
and the spec describe. -/
theorem C3_batched_yields_elements :
    batched ([1, 2, 3, 4, 5] : List Nat) 2 = Except.ok [1, 2] := rfl

/-- C4: after a successful call, every item missing from the store at call
start is present in the final store bound to exactly the vector the pipeline
computed for it; the final store is the call-start store with one
(overwriting) write per miss-list entry, performed in order — no write is
skipped, even for duplicate keys. -/
theorem C4_write_back [DecidableEq α]
    (method : List α → Except ε (List β)) (f : α → β) (store : Store α β) (X : List α)
    (hm : ∀ L, method L = Except.ok (L.map f)) :
    (wrappedRun method store X).store
      = (X.filter (fun x => (Store.get store x).isNone)).foldl
          (fun s t => Store.set s t (f t)) store ∧
    ∀ x ∈ X, Store.get store x = none →
      Store.get (wrappedRun method store X).store x = some (f x) := by
  have h := (wrappedRun_ok method f store X (hm _)).2
  rw [textTodo_eq_filter] at h
  refine ⟨h, ?_⟩
  intro x hx hmiss
  rw [h, get_foldl_set]
  have hx' : x ∈ X.filter (fun x => (Store.get store x).isNone) := by
    simp [List.mem_filter, hx, hmiss]
  simp [hx']

theorem C4_witness :
    (∀ L, okMap (fun n => n * 10) L = Except.ok (L.map (fun n => n * 10))) ∧
    ((wrappedRun (okMap (fun n => n * 10)) ([(1, 999)] : Store Nat Nat) [0, 1]).store
        = ([0, 1].filter
            (fun x => (Store.get ([(1, 999)] : Store Nat Nat) x).isNone)).foldl
            (fun s t => Store.set s t (t * 10)) [(1, 999)] ∧
      ∀ x ∈ ([0, 1] : List Nat), Store.get ([(1, 999)] : Store Nat Nat) x = none →
        Store.get (wrappedRun (okMap (fun n => n * 10))
          ([(1, 999)] : Store Nat Nat) [0, 1]).store x = some (x * 10)) :=
  ⟨fun _ => rfl, C4_write_back _ _ _ _ (fun _ => rfl)⟩

/-- C5: if the wrapped method raises on the miss batch, the exception
propagates unchanged, the call returns no (partial) result array, and the
store is exactly what it was at call start. -/
theorem C5_failure_atomicity [DecidableEq α]
    (method : List α → Except ε (List β)) (store : Store α β) (X : List α) (e : ε)
    (he : method (textTodo store X) = Except.error e) :
    (wrappedRun method store X).output = Except.error e ∧
    (wrappedRun method store X).store = store := by
  rw [wrappedRun_err method store X e he]
  exact ⟨rfl, rfl⟩

theorem C5_witness :
    (alwaysFail (textTodo ([] : Store Nat Nat) [1, 2])
        = (Except.error "boom" : Except String (List Nat))) ∧
    ((wrappedRun (alwaysFail : List Nat → Except String (List Nat)) [] [1, 2]).output
        = Except.error "boom" ∧
      (wrappedRun (alwaysFail : List Nat → Except String (List Nat)) [] [1, 2]).store
        = []) :=
  ⟨rfl, C5_failure_atomicity _ _ _ _ rfl⟩

/-- C6: with a deterministic item-wise pipeline and a fresh (empty) store,
calling the wrapped transform twice on the same items yields identical
result arrays, and the second call's miss batch is empty — every item
resolves as a cache hit. -/
theorem C6_idempotent_round_trip [DecidableEq α]
    (method : List α → Except ε (List β)) (f : α → β) (X : List α)
    (hm : ∀ L, method L = Except.ok (L.map f)) :
    (wrappedRun method (wrappedRun method ([] : Store α β) X).store X).output
      = (wrappedRun method ([] : Store α β) X).output ∧
    (wrappedRun method (wrappedRun method ([] : Store α β) X).store X).calls
      = [[]] := by
  have h1 := wrappedRun_ok method f ([] : Store α β) X (hm _)
  have hstore1 : ∀ x ∈ X,
      Store.get (wrappedRun method ([] : Store α β) X).store x = some (f x) := by
    intro x hx
    rw [h1.2, textTodo_eq_filter, get_foldl_set]
    have hx' : x ∈ X.filter (fun x => (Store.get ([] : Store α β) x).isNone) := by
      simp [List.mem_filter, hx, Store.get]
    simp [hx']
  have h2 := wrappedRun_ok method f (wrappedRun method ([] : Store α β) X).store X (hm _)
  have htodo2 : textTodo (wrappedRun method ([] : Store α β) X).store X = [] := by
    rw [textTodo_eq_filter]
    apply List.filter_eq_nil_iff.mpr
    intro a ha
    simp [hstore1 a ha]
  constructor
  · rw [h2.1, h1.1]
    apply congrArg
    apply List.map_congr_left
    intro a ha
    simp [hstore1 a ha, Store.get]
  · rw [wrappedRun_calls, htodo2]

theorem C6_witness :
    (∀ L, okMap (fun n => n * 10) L = Except.ok (L.map (fun n => n * 10))) ∧
    ((wrappedRun (okMap (fun n => n * 10))
        (wrappedRun (okMap (fun n => n * 10)) ([] : Store Nat Nat) [1, 2]).store
        [1, 2]).output
      = (wrappedRun (okMap (fun n => n * 10)) ([] : Store Nat Nat) [1, 2]).output ∧
     (wrappedRun (okMap (fun n => n * 10))
        (wrappedRun (okMap (fun n => n * 10)) ([] : Store Nat Nat) [1, 2]).store
        [1, 2]).calls = [[]]) :=
  ⟨fun _ => rfl, C6_idempotent_round_trip _ _ _ (fun _ => rfl)⟩

/-- C7 (counterexample): with item `1` already covered by the store, the
wrapped call still invokes the wrapped method — exactly once, on the empty
miss list — so on a full-hit call the original transform IS invoked, contrary
to the claim that it is not invoked at all. -/
theorem C7_counterexample :
    Store.get ([(1, 2)] : Store Nat Nat) 1 = some 2 ∧
    (wrappedRun (okMap (fun n => n + 1)) ([(1, 2)] : Store Nat Nat) [1]).calls
      = [[]] ∧
    (wrappedRun (okMap (fun n => n + 1)) ([(1, 2)] : Store Nat Nat) [1]).calls
      ≠ [] := by
  refine ⟨rfl, rfl, ?_⟩
  decide

/-- C7 (amended): on every call the wrapped method is invoked exactly once,
on precisely the ordered list of call-start miss items — never on a hit
item; when every item is a hit, this single invocation receives the empty
list. -/
theorem C7_amended_miss_only_batch [DecidableEq α]
    (method : List α → Except ε (List β)) (store : Store α β) (X : List α) :
    (wrappedRun method store X).calls = [textTodo store X] ∧
    ∀ x ∈ textTodo store X, Store.get store x = none := by
  refine ⟨wrappedRun_calls method store X, ?_⟩
  intro x hx
  rw [textTodo_eq_filter] at hx
  have := (List.mem_filter.mp hx).2
  simpa using this

/-- C8: when an item `x` is absent from the store at call start, every one
of its occurrences in the input is recorded as a miss and forwarded to the
wrapped method (the miss batch contains `x` as many times as the input does
— no intra-call dedup), and the returned array still carries the correct
vector at each duplicate index. -/
theorem C8_duplicates_all_forwarded [DecidableEq α]
    (method : List α → Except ε (List β)) (f : α → β) (store : Store α β)
    (X : List α) (x : α)
    (hm : ∀ L, method L = Except.ok (L.map f))
    (hmiss : Store.get store x = none) :
    (wrappedRun method store X).calls = [textTodo store X] ∧
    (textTodo store X).count x = X.count x ∧
    ∀ i : Nat, X[i]? = some x →
      ∃ res, (wrappedRun method store X).output = Except.ok res ∧
        res[i]? = some (some (f x)) := by
  refine ⟨wrappedRun_calls _ _ _, ?_, ?_⟩
  · rw [textTodo_eq_filter]
    exact List.count_filter (by simp [hmiss])
  · intro i hi
    refine ⟨_, (wrappedRun_ok method f store X (hm _)).1, ?_⟩
    rw [List.getElem?_map, hi]
    simp [hmiss]

theorem C8_witness :
    (∀ L, okMap (fun n => n * 10) L = Except.ok (L.map (fun n => n * 10))) ∧
    Store.get ([] : Store Nat Nat) 1 = none ∧
    ((wrappedRun (okMap (fun n => n * 10)) ([] : Store Nat Nat) [1, 2, 1]).calls
        = [textTodo ([] : Store Nat Nat) [1, 2, 1]] ∧
      (textTodo ([] : Store Nat Nat) [1, 2, 1]).count 1 = ([1, 2, 1] : List Nat).count 1 ∧
      ∀ i : Nat, ([1, 2, 1] : List Nat)[i]? = some 1 →
        ∃ res, (wrappedRun (okMap (fun n => n * 10))
            ([] : Store Nat Nat) [1, 2, 1]).output = Except.ok res ∧
          res[i]? = some (some 10)) :=
  ⟨fun _ => rfl, rfl, C8_duplicates_all_forwarded _ _ _ _ _ (fun _ => rfl) rfl⟩

/-- C9: `batched` fails with the `ValueError` exactly when the batch size is
less than one; for the empty input with size 2 it yields the empty sequence
without error. -/
theorem C9_batched_error_iff (l : List γ) (n : Int) :
    ((∃ e, batched l n = Except.error e) ↔ n < 1) ∧
    batched ([] : List Nat) 2 = Except.ok [] := by
  constructor
  · constructor
    · rintro ⟨e, he⟩
      by_contra hn
      simp [batched, hn] at he
    · intro hn
      exact ⟨"n must be at least one", by simp [batched, hn]⟩
  · rfl

/-- C10: `cached` returns the pipeline it was given with its `transform`
attribute rebound to the caching wrapper and every other attribute left
unchanged, so the original uncached behavior is no longer exposed: every
direct call of the rebound `transform` runs the cache-aside algorithm,
probing the store and handing the inner method only the miss batch. -/
theorem C10_cached_rebinds_transform [DecidableEq α] (p : Pipeline α β ε σ) :
    (cached p).extra = p.extra ∧
    (∀ X store, (cached p).transform X store = wrappedRun p.transform store X) ∧
    (∀ X store, ((cached p).transform X store).calls = [textTodo store X]) :=
  ⟨rfl, fun _ _ => rfl, fun X store => wrappedRun_calls p.transform store X⟩

end Embetter
